import Mathlib

/-!
Verification of the Spend Tracker core (`main.py` / `schemas.py`):
the keyword categorizer `apply_auto_category`, the transaction-creation
category assignment, and the `/api/insights` monthly aggregation.

Python floats are embedded as exact rationals, Python `datetime` values as
(year, month, day, time-of-day) tuples ordered lexicographically, documents
of the `transaction` / `categoryrule` / `budget` collections as structures
with the fields the Pydantic schemas guarantee, and an unhandled exception
in a request handler as an error value.
-/

set_option autoImplicit false
set_option maxRecDepth 8192

namespace SpendTracker

/-! ### Substring matching (Python's `in` on strings) -/

/-- `lcPre needle hay`: the char list `needle` is an initial segment of `hay`. -/
def lcPre : List Char → List Char → Bool
  | [], _ => true
  | _ :: _, [] => false
  | n :: ns, h :: hs => n = h && lcPre ns hs

/-- `lcSub needle hay`: `needle` occurs contiguously inside `hay`
(Python's `needle in hay`). -/
def lcSub : List Char → List Char → Bool
  | ns, [] => ns.isEmpty
  | ns, h :: hs => lcPre ns (h :: hs) || lcSub ns hs

/-- Python's `needle in hay` on strings. -/
def strIn (needle hay : String) : Bool :=
  lcSub needle.toList hay.toList

/-! ### The categorizer (`apply_auto_category`, main.py lines 67-74) -/

/-- A document of the `categoryrule` collection; both fields are present
because `CategoryRule` (schemas.py) requires them. -/
structure Rule where
  keyword : String
  category : String
  deriving DecidableEq

/-- The search text `f"\x7bmerchant\x7d \x7bdescription or ''\x7d".lower()`. -/
def searchText (merchant : String) (description : Option String) : String :=
  (merchant ++ " " ++ description.getD "").toLower

/-- The per-rule test of the loop body:
`r.get("keyword", "").lower() in text`. -/
def ruleMatches (merchant : String) (description : Option String) (r : Rule) : Bool :=
  strIn r.keyword.toLower (searchText merchant description)

/-- `apply_auto_category` (main.py): return the category of the first rule,
in stored order, whose lowercased keyword occurs in the search text. -/
def apply_auto_category (merchant : String) (description : Option String)
    (rules : List Rule) : Option String :=
  (rules.find? (ruleMatches merchant description)).map Rule.category

/-! ### Dates and timestamps -/

/-- A calendar date (the date part of a Python `datetime`). -/
structure Date where
  year : ℕ
  month : ℕ
  day : ℕ
  deriving DecidableEq

/-- A `datetime`: a date plus a time-of-day, the latter embedded as a
rational fraction of a day in `[0, 1)`. -/
structure Ts where
  d : Date
  tod : ℚ
  deriving DecidableEq

/-- Strict lexicographic order on dates, as `datetime` comparison. -/
def dLt (a b : Date) : Bool :=
  a.year < b.year ||
    (a.year = b.year && (a.month < b.month ||
      (a.month = b.month && a.day < b.day)))

/-- `a < b` on timestamps. -/
def tsLt (a b : Ts) : Bool :=
  dLt a.d b.d || (a.d = b.d && a.tod < b.tod)

/-- `a <= b` on timestamps. -/
def tsLe (a b : Ts) : Bool :=
  dLt a.d b.d || (a.d = b.d && a.tod ≤ b.tod)

/-- Gregorian leap-year rule, as implemented by Python's `datetime`. -/
def isLeap (y : ℕ) : Bool :=
  y % 4 = 0 && (y % 100 ≠ 0 || y % 400 = 0)

/-- Length of a month of the proleptic Gregorian calendar. -/
def daysInMonth (y m : ℕ) : ℕ :=
  if m = 2 then (if isLeap y then 29 else 28)
  else if m = 4 ∨ m = 6 ∨ m = 9 ∨ m = 11 then 30 else 31

/-- The next calendar day; `none` past `datetime.max`'s date 9999-12-31
(Python raises `OverflowError` when date arithmetic leaves the supported
range). -/
def succDate (dt : Date) : Option Date :=
  if dt.day < daysInMonth dt.year dt.month then some ⟨dt.year, dt.month, dt.day + 1⟩
  else if dt.month < 12 then some ⟨dt.year, dt.month + 1, 1⟩
  else if dt.year < 9999 then some ⟨dt.year + 1, 1, 1⟩
  else none

/-- `dt + timedelta(days=n)` on the date part. -/
def addDays (dt : Date) : ℕ → Option Date
  | 0 => some dt
  | n + 1 => (succDate dt).bind (fun d2 => addDays d2 n)

/-- `.replace(day=1)`. -/
def setDay1 (dt : Date) : Date :=
  ⟨dt.year, dt.month, 1⟩

/-- The end of the insights date range:
`(start + timedelta(days=32)).replace(day=1)` (main.py line 148). -/
def monthEnd (y m : ℕ) : Option Date :=
  (addDays ⟨y, m, 1⟩ 32).map setDay1

/-- The first day of the month after `(y, m)`. -/
def nextMonthFirst (y m : ℕ) : Date :=
  if m = 12 then ⟨y + 1, 1, 1⟩ else ⟨y, m + 1, 1⟩

/-! ### Month-string parsing

`insights` computes `datetime.strptime(month + "-01", "%Y-%m-%d")`.
`strptime`'s pattern for `%Y` is exactly four digits, for `%m` it is
`1[0-2]|0[1-9]|[1-9]`, and for `%d` (here always the appended `01`) it is
satisfied; the whole string must be consumed and year 0000 is rejected by
the `datetime` constructor. Hence `month + "-01"` parses exactly when
`month` is four digits (not all zero), a hyphen, and a one- or two-digit
month value in 1..12. -/

/-- ASCII digit test. -/
def isDig (c : Char) : Bool :=
  decide (48 ≤ c.toNat ∧ c.toNat ≤ 57)

/-- Numeric value of an ASCII digit. -/
def digVal (c : Char) : ℕ :=
  c.toNat - 48

/-- The year encoded by four digit characters. -/
def yearVal (a b c d : Char) : ℕ :=
  1000 * digVal a + 100 * digVal b + 10 * digVal c + digVal d

/-- Core of the month parse, on the character list of the `month` query
parameter. Returns the `(year, month)` pair exactly when
`datetime.strptime(month + "-01", "%Y-%m-%d")` succeeds. -/
def parseMonthCore : List Char → Option (ℕ × ℕ)
  | [a, b, c, d, h, e] =>
    if isDig a && isDig b && isDig c && isDig d && h = '-'
        && decide (49 ≤ e.toNat ∧ e.toNat ≤ 57) then
      if yearVal a b c d = 0 then none else some (yearVal a b c d, digVal e)
    else none
  | [a, b, c, d, h, e, f] =>
    if isDig a && isDig b && isDig c && isDig d && h = '-' then
      if e = '0' && decide (49 ≤ f.toNat ∧ f.toNat ≤ 57) then
        if yearVal a b c d = 0 then none else some (yearVal a b c d, digVal f)
      else if e = '1' && decide (48 ≤ f.toNat ∧ f.toNat ≤ 50) then
        if yearVal a b c d = 0 then none else some (yearVal a b c d, 10 + digVal f)
      else none
    else none
  | _ => none

/-- `strptime(month + "-01", "%Y-%m-%d")`, keeping only year and month. -/
def parseMonthArg (s : String) : Option (ℕ × ℕ) :=
  parseMonthCore s.toList

/-- The spec's month pattern `^\d\x7b4\x7d-\d\x7b2\x7d$` (four digits,
hyphen, two digits), stated from the spec's words for comparison with the
code's actual acceptance behaviour. -/
def regexYYYYMM (s : String) : Bool :=
  match s.toList with
  | [a, b, c, d, h, e, f] =>
    isDig a && isDig b && isDig c && isDig d && h = '-' && isDig e && isDig f
  | _ => false

/-! ### Rounding

Python's builtin `round` rounds half to even (banker's rounding); the
amounts are embedded as exact rationals. -/

/-- Round a rational to the nearest integer, ties to the even integer:
Python's `round(x)`. -/
def roundHalfEven (x : ℚ) : ℤ :=
  if x - (⌊x⌋ : ℚ) < 1/2 then ⌊x⌋
  else if 1/2 < x - (⌊x⌋ : ℚ) then ⌊x⌋ + 1
  else if ⌊x⌋ % 2 = 0 then ⌊x⌋ else ⌊x⌋ + 1

/-- Python's `round(x, n)`. -/
def pyRound (x : ℚ) (n : ℕ) : ℚ :=
  ((roundHalfEven (x * 10 ^ n) : ℚ)) / 10 ^ n

/-- Round half away from zero to `n` decimals — the rounding mode named by
the spec ("all monetary rounding is half-up"), stated from the spec's words
for comparison with the code's `round`. -/
def specRoundHalfUp (n : ℕ) (x : ℚ) : ℚ :=
  if 0 ≤ x then ((⌊x * 10 ^ n + 1/2⌋ : ℚ)) / 10 ^ n
  else -(((⌊-x * 10 ^ n + 1/2⌋ : ℚ)) / 10 ^ n)

/-- Characterisation of rounding half to even at scale `s = 10 ^ n`:
the result is a multiple of `1 / s`, within half an ulp of the input,
lands on an even numerator at exact ties, and is strictly nearest
otherwise. -/
def isHalfEven (s q r : ℚ) : Prop :=
  (∃ k : ℤ, r * s = k)
  ∧ |r - q| * s ≤ 1/2
  ∧ (q * s - (⌊q * s⌋ : ℚ) = 1/2 → ∃ k : ℤ, r * s = 2 * k)
  ∧ (q * s - (⌊q * s⌋ : ℚ) ≠ 1/2 → |r - q| * s < 1/2)

/-! ### Transactions, budgets, grouping -/

/-- A document of the `transaction` collection (fields of `Transaction`
in schemas.py). -/
structure Txn where
  amount : ℚ
  merchant : String
  description : Option String
  category : Option String
  date : Ts
  account : Option String
  currency : String
  deriving DecidableEq

/-- A document of the `budget` collection (fields of `Budget`
in schemas.py). -/
structure BudgetRec where
  category : String
  month : String
  limit : ℚ
  deriving DecidableEq

/-- The `$match` stage: `start <= date < end`. -/
def inRange (s e : Ts) (t : Txn) : Bool :=
  tsLe s t.date && tsLt t.date e

/-- Distinct group keys of the `$group` stage, in order of first
appearance. -/
def groupKeys (ts : List Txn) : List (Option String) :=
  ts.foldl (fun acc t => if t.category ∈ acc then acc else acc ++ [t.category]) []

/-- `$sum: "$amount"` over one group: the exact (unrounded) sum of the
per-transaction amounts. -/
def groupTotal (ts : List Txn) (k : Option String) : ℚ :=
  ((ts.filter (fun t => t.category = k)).map Txn.amount).sum

/-- `$sum: 1` over one group. -/
def groupCount (ts : List Txn) (k : Option String) : ℕ :=
  (ts.filter (fun t => t.category = k)).length

/-- One output document of the `$group` stage. -/
structure Group where
  key : Option String
  total : ℚ
  count : ℕ
  deriving DecidableEq

/-- The `$group` stage over the filtered transactions. -/
def groupsOf (ts : List Txn) : List Group :=
  (groupKeys ts).map (fun k => ⟨k, groupTotal ts k, groupCount ts k⟩)

/-- Stable insert for the descending-by-total sort. -/
def insertG (g : Group) : List Group → List Group
  | [] => [g]
  | h :: t => if h.total < g.total then g :: h :: t else h :: insertG g t

/-- The `$sort: \x7btotal: -1\x7d` stage (a stable descending sort). -/
def sortGroups (l : List Group) : List Group :=
  l.foldr insertG []

/-! ### Budget lookup and per-category entries -/

/-- `\x7bb["category"]: b for b in ...\x7d.get(cat)`: building a dict keyed
on category and reading one key back; a later record overwrites an earlier
one with the same category. -/
def dictGet (bs : List BudgetRec) (cat : String) : Option BudgetRec :=
  bs.foldl (fun acc b => if b.category = cat then some b else acc) none

/-- `budgets.get(cat, \x7b\x7d).get("limit")` where `budgets` is the dict
built from `db["budget"].find(\x7b"month": month\x7d)`. -/
def budgetLimitFor (monthStr : String) (bs : List BudgetRec) (cat : String) : Option ℚ :=
  (dictGet (bs.filter (fun b => b.month = monthStr)) cat).map BudgetRec.limit

/-- `item.get("_id") or "Uncategorized"`: the `None` group — and a
falsy empty-string category — is labelled `Uncategorized`. -/
def catLabel : Option String → String
  | none => "Uncategorized"
  | some s => if s = "" then "Uncategorized" else s

/-- The four shapes of recommendation message produced by `insights`. -/
inductive MsgKind where
  | overThreshold
  | warning
  | healthy
  | noBudget
  deriving DecidableEq

/-- The threshold cascade on the rounded percentage
(`used_pct >= 90` / `used_pct >= 70` / otherwise). -/
def msgFor (u : ℚ) : MsgKind :=
  if 90 ≤ u then MsgKind.overThreshold
  else if 70 ≤ u then MsgKind.warning
  else MsgKind.healthy

/-- One element of the `categories` list of the insights response:
category label, rounded spend, the looked-up budget limit, the rounded
percentage quoted in the message (absent in the no-budget message), and the
message shape. -/
structure CatEntry where
  category : String
  spent : ℚ
  budget : Option ℚ
  usedPct : Option ℚ
  msgKind : MsgKind
  deriving DecidableEq

/-- The loop body of `insights` over one aggregation group (main.py lines
160-179). `if limit:` treats both a missing budget and a zero limit as
falsy. -/
def mkEntry (monthStr : String) (bs : List BudgetRec) (key : Option String)
    (total : ℚ) : CatEntry :=
  let cat := catLabel key
  match budgetLimitFor monthStr bs cat with
  | some l =>
    if l = 0 then ⟨cat, pyRound total 2, some l, none, MsgKind.noBudget⟩
    else
      let u := pyRound (total / l * 100) 1
      ⟨cat, pyRound total 2, some l, some u, msgFor u⟩
  | none => ⟨cat, pyRound total 2, none, none, MsgKind.noBudget⟩

/-! ### The insights summary -/

/-- The response of `/api/insights`. -/
structure Summary where
  month : String
  categories : List CatEntry
  topCategory : Option String
  totalSpend : ℚ
  deriving DecidableEq

/-- Everything `insights` does after the date filter: group, sort, derive
the per-category entries, take the top category and re-round the sum of the
rounded spends. -/
def summarize (monthStr : String) (bs : List BudgetRec) (filtered : List Txn) : Summary :=
  let gs := sortGroups (groupsOf filtered)
  let recs := gs.map (fun g => mkEntry monthStr bs g.key g.total)
  { month := monthStr
    categories := recs
    topCategory := (recs.head?).map CatEntry.category
    totalSpend := pyRound ((recs.map CatEntry.spent).sum) 2 }

/-- An unhandled exception escaping the `insights` handler: the
`ValueError` from `strptime` on a bad month string, or the `OverflowError`
from date arithmetic past `datetime.max`. -/
inductive IErr where
  | badMonth
  | dateOverflow
  deriving DecidableEq

/-- `insights` after month parsing: compute the `[start, end)` range and
summarise the transactions inside it. -/
def computeInsights (monthStr : String) (y m : ℕ) (txns : List Txn)
    (bs : List BudgetRec) : Except IErr Summary :=
  match monthEnd y m with
  | none => Except.error IErr.dateOverflow
  | some e =>
    Except.ok (summarize monthStr bs
      (txns.filter (inRange ⟨⟨y, m, 1⟩, 0⟩ ⟨e, 0⟩)))

/-- The `/api/insights` handler for a supplied month string. -/
def insights (monthStr : String) (txns : List Txn) (bs : List BudgetRec) :
    Except IErr Summary :=
  match parseMonthArg monthStr with
  | none => Except.error IErr.badMonth
  | some (y, m) => computeInsights monthStr y m txns bs

/-! ### Transaction creation and the store -/

/-- Python truthiness of an optional string: `None` and `""` are falsy. -/
def optTruthy : Option String → Bool
  | none => false
  | some s => s ≠ ""

/-- The category persisted by `create_transaction` (main.py lines 115-117):
`if auto and not data.get("category"): data["category"] = auto`. -/
def storedCategory (rules : List Rule) (p : Txn) : Option String :=
  let auto := apply_auto_category p.merchant p.description rules
  if optTruthy auto && !(optTruthy p.category) then auto else p.category

/-- The three mutable collections reachable from the handlers. -/
structure Store where
  txns : List Txn
  rules : List Rule
  budgets : List BudgetRec
  deriving DecidableEq

/-- `POST /api/transactions`: insert the payload with the category chosen
at creation time. -/
def create_transaction (st : Store) (p : Txn) : Store :=
  { st with txns := st.txns ++ [{ p with category := storedCategory st.rules p }] }

/-- `POST /api/rules`. -/
def add_rule (st : Store) (r : Rule) : Store :=
  { st with rules := st.rules ++ [r] }

/-- `POST /api/budgets`. -/
def set_budget (st : Store) (b : BudgetRec) : Store :=
  { st with budgets := st.budgets ++ [b] }

/-! ### Helper lemmas -/

theorem strIn_empty_left (hay : String) : strIn "" hay = true := by
  show lcSub [] hay.toList = true
  cases hay.toList with
  | nil => rfl
  | cons h t => rfl

theorem toLower_empty : ("" : String).toLower = "" := by with_unfolding_all rfl

theorem find?_map_characterization (p : Rule → Bool) (rules : List Rule) :
    ((rules.find? p).map Rule.category = none ↔ ∀ r ∈ rules, p r = false)
    ∧ ∀ c, (rules.find? p).map Rule.category = some c ↔
        ∃ pre r0 suf, rules = pre ++ r0 :: suf
          ∧ (∀ r ∈ pre, p r = false) ∧ p r0 = true ∧ r0.category = c := by
  induction rules with
  | nil =>
    refine ⟨by simp, fun c => ?_⟩
    simp only [List.find?_nil, Option.map_none]
    constructor
    · intro h; cases h
    · rintro ⟨pre, r0, suf, h, -⟩
      exact absurd h.symm (by simp)
  | cons r rs ih =>
    cases h : p r with
    | true =>
      refine ⟨?_, fun c => ?_⟩
      · rw [List.find?_cons_of_pos _ h]
        simp [h]
      · rw [List.find?_cons_of_pos _ h]
        simp only [Option.map_some', Option.some_inj]
        constructor
        · intro hc
          exact ⟨[], r, rs, rfl, by simp, h, hc⟩
        · rintro ⟨pre, r0, suf, hsplit, hpre, hr0, hcat⟩
          cases pre with
          | nil =>
            simp only [List.nil_append, List.cons.injEq] at hsplit
            rw [← hcat, ← hsplit.1]
          | cons q qs =>
            simp only [List.cons_append, List.cons.injEq] at hsplit
            have : p r = false := hsplit.1 ▸ hpre q (by simp)
            rw [this] at h; cases h
    | false =>
      refine ⟨?_, fun c => ?_⟩
      · rw [List.find?_cons_of_neg _ (by simp [h])]
        rw [ih.1]
        simp [h]
      · rw [List.find?_cons_of_neg _ (by simp [h])]
        rw [ih.2 c]
        constructor
        · rintro ⟨pre, r0, suf, hsplit, hpre, hr0, hcat⟩
          refine ⟨r :: pre, r0, suf, by rw [hsplit, List.cons_append], ?_, hr0, hcat⟩
          intro r' hr'
          rcases List.mem_cons.mp hr' with h1 | h2
          · rw [h1]; exact h
          · exact hpre r' h2
        · rintro ⟨pre, r0, suf, hsplit, hpre, hr0, hcat⟩
          cases pre with
          | nil =>
            simp only [List.nil_append, List.cons.injEq] at hsplit
            rw [hsplit.1] at h; rw [h] at hr0; cases hr0
          | cons q qs =>
            simp only [List.cons_append, List.cons.injEq] at hsplit
            exact ⟨qs, r0, suf, hsplit.2, fun r' hr' => hpre r' (by simp [hr']), hr0, hcat⟩

/-! ### Claim theorems -/

/-- C1: `apply_auto_category` returns the category of the first rule in
stored order whose lowercased keyword is a substring of the lowercased
string `merchant ++ " " ++ description` (empty description when absent),
and `none` exactly when no rule matches. -/
theorem c1_categorize_first_match (merchant : String) (description : Option String)
    (rules : List Rule) :
    (apply_auto_category merchant description rules = none ↔
      ∀ r ∈ rules, ruleMatches merchant description r = false)
    ∧ ∀ c, apply_auto_category merchant description rules = some c ↔
        ∃ pre r0 suf, rules = pre ++ r0 :: suf
          ∧ (∀ r ∈ pre, ruleMatches merchant description r = false)
          ∧ ruleMatches merchant description r0 = true ∧ r0.category = c :=
  find?_map_characterization (ruleMatches merchant description) rules

/-- C1 witness: the spec's scenario, rule keyword `starbucks` against
merchant `Starbucks #123`. -/
theorem c1_witness :
    apply_auto_category "Starbucks #123" none [⟨"starbucks", "Dining"⟩] = some "Dining" :=
  ((c1_categorize_first_match "Starbucks #123" none [⟨"starbucks", "Dining"⟩]).2 "Dining").mpr
    ⟨[], ⟨"starbucks", "Dining"⟩, [], rfl, by simp, by with_unfolding_all rfl, rfl⟩

/-- C8: a rule with an empty keyword matches every search string, so placed
first it decides every categorization and shadows all later rules. -/
theorem c8_empty_keyword (merchant : String) (description : Option String)
    (r0 : Rule) (rest : List Rule) (hk : r0.keyword = "") :
    ruleMatches merchant description r0 = true
    ∧ apply_auto_category merchant description (r0 :: rest) = some r0.category := by
  have hm : ruleMatches merchant description r0 = true := by
    rw [ruleMatches, hk, toLower_empty]
    exact strIn_empty_left _
  refine ⟨hm, ?_⟩
  rw [apply_auto_category, List.find?_cons_of_pos _ hm]
  rfl

/-- C8 witness: an empty-keyword rule in front shadows a later rule. -/
theorem c8_witness :
    ruleMatches "Some Store" none ⟨"", "CatchAll"⟩ = true
    ∧ apply_auto_category "Some Store" none [⟨"", "CatchAll"⟩, ⟨"store", "Other"⟩]
        = some "CatchAll" :=
  c8_empty_keyword "Some Store" none ⟨"", "CatchAll"⟩ [⟨"store", "Other"⟩] rfl

theorem daysInMonth_bounds (y m : ℕ) (hm1 : 1 ≤ m) (hm2 : m ≤ 12) :
    28 ≤ daysInMonth y m ∧ daysInMonth y m ≤ 31 := by
  interval_cases m <;>
    · simp [daysInMonth]
      all_goals split <;> omega

theorem addDays_within (y m : ℕ) :
    ∀ (n d : ℕ), 1 ≤ d → d + n ≤ daysInMonth y m →
      addDays ⟨y, m, d⟩ n = some ⟨y, m, d + n⟩ := by
  intro n
  induction n with
  | zero => intro d _ _; rfl
  | succ k ih =>
    intro d hd hle
    have hlt : d < daysInMonth y m := by omega
    show (succDate ⟨y, m, d⟩).bind (fun d2 => addDays d2 k) = some ⟨y, m, d + (k + 1)⟩
    rw [succDate, if_pos hlt]
    show addDays ⟨y, m, d + 1⟩ k = some ⟨y, m, d + (k + 1)⟩
    rw [show d + (k + 1) = (d + 1) + k by omega]
    exact ih (d + 1) (by omega) (by omega)

theorem addDays_add (a : ℕ) : ∀ (b : ℕ) (dt : Date),
    addDays dt (a + b) = (addDays dt a).bind (fun d2 => addDays d2 b) := by
  induction a with
  | zero => intro b dt; rw [Nat.zero_add]; rfl
  | succ k ih =>
    intro b dt
    rw [show k + 1 + b = (k + b) + 1 by omega]
    show (succDate dt).bind (fun d2 => addDays d2 (k + b))
        = ((succDate dt).bind (fun d2 => addDays d2 k)).bind (fun d3 => addDays d3 b)
    cases succDate dt with
    | none => rfl
    | some d2 =>
      show addDays d2 (k + b) = (addDays d2 k).bind (fun d3 => addDays d3 b)
      exact ih b d2

theorem addDays_one (dt : Date) : addDays dt 1 = succDate dt := by
  show (succDate dt).bind (fun d2 => addDays d2 0) = succDate dt
  cases succDate dt <;> rfl

theorem succDate_last (y m : ℕ) (hm : m < 12) :
    succDate ⟨y, m, daysInMonth y m⟩ = some ⟨y, m + 1, 1⟩ := by
  simp [succDate, hm]

theorem succDate_newYear (y : ℕ) (hy : y < 9999) :
    succDate ⟨y, 12, 31⟩ = some ⟨y + 1, 1, 1⟩ := by
  simp [succDate, daysInMonth, hy]

theorem monthEnd_valid (y m : ℕ) (hm1 : 1 ≤ m) (hm2 : m ≤ 12) (hy2 : y ≤ 9999)
    (hnot : ¬(y = 9999 ∧ m = 12)) :
    monthEnd y m = some (nextMonthFirst y m) := by
  obtain ⟨hL1, hL2⟩ := daysInMonth_bounds y m hm1 hm2
  rw [monthEnd, show (32 : ℕ) = (daysInMonth y m - 1) + (1 + (32 - daysInMonth y m)) by omega,
    addDays_add]
  rw [addDays_within y m (daysInMonth y m - 1) 1 (by omega) (by omega)]
  rw [show 1 + (daysInMonth y m - 1) = daysInMonth y m by omega]
  show ((addDays ⟨y, m, daysInMonth y m⟩ (1 + (32 - daysInMonth y m))).map setDay1)
      = some (nextMonthFirst y m)
  rw [addDays_add 1 (32 - daysInMonth y m), addDays_one]
  by_cases hm12 : m = 12
  · subst hm12
    have hy : y < 9999 := by
      have : y ≠ 9999 := fun h => hnot ⟨h, rfl⟩
      omega
    have hL12 : daysInMonth y 12 = 31 := by simp [daysInMonth]
    rw [hL12, succDate_newYear y hy]
    show (addDays ⟨y + 1, 1, 1⟩ 1).map setDay1 = some (nextMonthFirst y 12)
    rw [addDays_within (y + 1) 1 1 1 (by omega) (by simp [daysInMonth])]
    simp [setDay1, nextMonthFirst]
  · have hmlt : m < 12 := by omega
    rw [succDate_last y m hmlt]
    show (addDays ⟨y, m + 1, 1⟩ (32 - daysInMonth y m)).map setDay1
        = some (nextMonthFirst y m)
    obtain ⟨hN1, hN2⟩ := daysInMonth_bounds y (m + 1) (by omega) (by omega)
    rw [addDays_within y (m + 1) (32 - daysInMonth y m) 1 (by omega) (by omega)]
    simp [setDay1, nextMonthFirst, hm12]

/-- C2 counterexample: for the valid month string `9999-12` (which the
month parser accepts) the end-of-range computation
`start + timedelta(days=32)` leaves the supported date range, so `insights`
fails instead of aggregating the December 9999 transaction — even though
that transaction lies inside the month's half-open interval. -/
theorem c2_counterexample :
    parseMonthArg "9999-12" = some (9999, 12)
    ∧ monthEnd 9999 12 = none
    ∧ insights "9999-12"
        [⟨5, "m", none, some "A", ⟨⟨9999, 12, 5⟩, 0⟩, none, "USD"⟩] []
        = Except.error IErr.dateOverflow
    ∧ tsLe ⟨⟨9999, 12, 1⟩, 0⟩ (⟨⟨9999, 12, 5⟩, 0⟩ : Ts) = true :=
  ⟨by decide, by decide, by with_unfolding_all rfl, by with_unfolding_all rfl⟩

/-- C2, amended: for every calendar month other than 9999-12, the computed
range end is the first day of the following month (correct for every month
length, leap February included), `insights` succeeds, and a transaction is
aggregated exactly when its timestamp lies in the half-open interval
`[first of month, first of next month)`; for 9999-12 the end computation
overflows and the request fails. -/
theorem c2_month_range (y m : ℕ) (hm1 : 1 ≤ m) (hm2 : m ≤ 12) (hy2 : y ≤ 9999)
    (hnot : ¬(y = 9999 ∧ m = 12)) (monthStr : String) (txns : List Txn)
    (bs : List BudgetRec) :
    monthEnd y m = some (nextMonthFirst y m)
    ∧ computeInsights monthStr y m txns bs
        = Except.ok (summarize monthStr bs
            (txns.filter (inRange ⟨⟨y, m, 1⟩, 0⟩ ⟨nextMonthFirst y m, 0⟩)))
    ∧ ∀ t, t ∈ txns.filter (inRange ⟨⟨y, m, 1⟩, 0⟩ ⟨nextMonthFirst y m, 0⟩)
        ↔ t ∈ txns ∧ tsLe ⟨⟨y, m, 1⟩, 0⟩ t.date = true
            ∧ tsLt t.date ⟨nextMonthFirst y m, 0⟩ = true := by
  have hend := monthEnd_valid y m hm1 hm2 hy2 hnot
  refine ⟨hend, ?_, ?_⟩
  · rw [computeInsights, hend]
  · intro t
    rw [List.mem_filter, inRange, Bool.and_eq_true]

/-- C2 witness: the leap-year scenario — the range for month 2024-02 ends
at 2024-03-01. -/
theorem c2_witness : monthEnd 2024 2 = some ⟨2024, 3, 1⟩ :=
  (c2_month_range 2024 2 (by norm_num) (by norm_num) (by norm_num) (by decide)
    "2024-02" [] []).1

/-- C7 counterexample: the month 9999-12 contains no transactions here, yet
`insights` reports a date overflow error rather than the empty summary the
claim promises for every month. -/
theorem c7_counterexample :
    insights "9999-12" [] [] = Except.error IErr.dateOverflow := by
  with_unfolding_all rfl

/-- C7, amended: for every month other than 9999-12, when no transaction
falls inside the month's range the computation succeeds and returns an
empty category list, `total_spend = 0` and no top category; for 9999-12 the
date-range computation fails even with no data. -/
theorem c7_no_data_month (y m : ℕ) (hm1 : 1 ≤ m) (hm2 : m ≤ 12) (hy2 : y ≤ 9999)
    (hnot : ¬(y = 9999 ∧ m = 12)) (monthStr : String) (txns : List Txn)
    (bs : List BudgetRec)
    (hempty : ∀ t ∈ txns,
      inRange ⟨⟨y, m, 1⟩, 0⟩ ⟨nextMonthFirst y m, 0⟩ t = false) :
    computeInsights monthStr y m txns bs
      = Except.ok ⟨monthStr, [], none, 0⟩ := by
  have hend := monthEnd_valid y m hm1 hm2 hy2 hnot
  rw [computeInsights, hend]
  have hnil : txns.filter (inRange ⟨⟨y, m, 1⟩, 0⟩ ⟨nextMonthFirst y m, 0⟩) = [] := by
    rw [List.filter_eq_nil_iff]
    intro t ht
    rw [hempty t ht]
    exact Bool.false_ne_true
  show Except.ok (summarize monthStr bs
      (txns.filter (inRange ⟨⟨y, m, 1⟩, 0⟩ ⟨nextMonthFirst y m, 0⟩)))
    = Except.ok ⟨monthStr, [], none, 0⟩
  rw [hnil]
  have hz : pyRound 0 2 = 0 := by with_unfolding_all rfl
  simp [summarize, groupsOf, groupKeys, sortGroups, hz]

/-- C7 witness: month 2024-05 with one out-of-range (June) transaction
yields the empty summary. -/
theorem c7_witness :
    computeInsights "2024-05" 2024 5
      [⟨7, "m", none, some "A", ⟨⟨2024, 6, 1⟩, 0⟩, none, "USD"⟩] []
      = Except.ok ⟨"2024-05", [], none, 0⟩ :=
  c7_no_data_month 2024 5 (by norm_num) (by norm_num) (by norm_num) (by decide)
    "2024-05" [⟨7, "m", none, some "A", ⟨⟨2024, 6, 1⟩, 0⟩, none, "USD"⟩] []
    (by
      intro t ht
      rw [List.mem_singleton] at ht
      subst ht
      with_unfolding_all rfl)

theorem roundHalfEven_spec (x : ℚ) :
    |((roundHalfEven x : ℤ) : ℚ) - x| ≤ 1/2
    ∧ (x - (⌊x⌋ : ℚ) = 1/2 → (2 : ℤ) ∣ roundHalfEven x)
    ∧ (x - (⌊x⌋ : ℚ) ≠ 1/2 → |((roundHalfEven x : ℤ) : ℚ) - x| < 1/2) := by
  have hfl : (⌊x⌋ : ℚ) ≤ x := Int.floor_le x
  have hfu : x < ⌊x⌋ + 1 := Int.lt_floor_add_one x
  unfold roundHalfEven
  split_ifs with h1 h2 h3
  · exact ⟨by rw [abs_le]; constructor <;> linarith,
      fun h => absurd h (by intro h; rw [h] at h1; exact lt_irrefl _ h1),
      fun _ => by rw [abs_lt]; constructor <;> linarith⟩
  · refine ⟨by rw [abs_le]; push_cast; constructor <;> linarith,
      fun h => absurd h (by intro h; rw [h] at h2; exact lt_irrefl _ h2),
      fun _ => by rw [abs_lt]; push_cast; constructor <;> linarith⟩
  · have hr : x - (⌊x⌋ : ℚ) = 1/2 := le_antisymm (not_lt.mp h2) (not_lt.mp h1)
    exact ⟨by rw [abs_le]; constructor <;> linarith,
      fun _ => Int.dvd_of_emod_eq_zero h3,
      fun hne => absurd hr hne⟩
  · have hr : x - (⌊x⌋ : ℚ) = 1/2 := le_antisymm (not_lt.mp h2) (not_lt.mp h1)
    refine ⟨by rw [abs_le]; push_cast; constructor <;> linarith,
      fun _ => ?_, fun hne => absurd hr hne⟩
    have := Int.emod_two_eq ⌊x⌋
    omega

theorem pyRound_halfEven (q : ℚ) (n : ℕ) : isHalfEven (10 ^ n) q (pyRound q n) := by
  have hs : (0 : ℚ) < 10 ^ n := by positivity
  obtain ⟨ha, hb, hc⟩ := roundHalfEven_spec (q * 10 ^ n)
  have hr : pyRound q n * 10 ^ n = ((roundHalfEven (q * 10 ^ n) : ℤ) : ℚ) := by
    rw [pyRound]
    field_simp
  have habs : |pyRound q n - q| * 10 ^ n
      = |((roundHalfEven (q * 10 ^ n) : ℤ) : ℚ) - q * 10 ^ n| := by
    rw [show |pyRound q n - q| * 10 ^ n = |pyRound q n - q| * |(10 : ℚ) ^ n| by
        rw [abs_of_pos hs],
      ← abs_mul, sub_mul, hr]
  refine ⟨⟨roundHalfEven (q * 10 ^ n), hr⟩, ?_, ?_, ?_⟩
  · rw [habs]; exact ha
  · intro htie
    obtain ⟨k, hk⟩ := hb htie
    exact ⟨k, by rw [hr, hk]; push_cast; ring⟩
  · intro hne
    rw [habs]; exact hc hne

theorem pyRound2_close (q : ℚ) : |pyRound q 2 - q| ≤ 1/100 := by
  obtain ⟨-, hb, -⟩ := pyRound_halfEven q 2
  norm_num at hb
  have := abs_nonneg (pyRound q 2 - q)
  linarith

theorem mem_insertG (a g : Group) (l : List Group) :
    a ∈ insertG g l ↔ a = g ∨ a ∈ l := by
  induction l with
  | nil => simp [insertG]
  | cons h t ih =>
    rw [insertG]
    split
    · simp
    · rw [List.mem_cons, ih, List.mem_cons]
      tauto

theorem mem_sortGroups (a : Group) (l : List Group) :
    a ∈ sortGroups l ↔ a ∈ l := by
  induction l with
  | nil => simp [sortGroups]
  | cons h t ih =>
    show a ∈ insertG h (sortGroups t) ↔ _
    rw [mem_insertG, ih, List.mem_cons]

theorem mkEntry_spent (ms : String) (bs : List BudgetRec) (k : Option String)
    (t : ℚ) : (mkEntry ms bs k t).spent = pyRound t 2 := by
  rw [mkEntry]
  rcases budgetLimitFor ms bs (catLabel k) with - | l
  · rfl
  · dsimp only
    split <;> rfl

theorem mkEntry_budget (ms : String) (bs : List BudgetRec) (k : Option String)
    (t : ℚ) : (mkEntry ms bs k t).budget = budgetLimitFor ms bs (catLabel k) := by
  rw [mkEntry]
  rcases budgetLimitFor ms bs (catLabel k) with - | l
  · rfl
  · dsimp only
    split <;> rfl

theorem mkEntry_usedPct (ms : String) (bs : List BudgetRec) (k : Option String)
    (t : ℚ) (u : ℚ) (h : (mkEntry ms bs k t).usedPct = some u) :
    ∃ l, budgetLimitFor ms bs (catLabel k) = some l ∧ l ≠ 0
      ∧ u = pyRound (t / l * 100) 1 := by
  rw [mkEntry] at h
  rcases hb : budgetLimitFor ms bs (catLabel k) with - | l
  · rw [hb] at h
    cases h
  · rw [hb] at h
    dsimp only at h
    by_cases hz : l = 0
    · rw [if_pos hz] at h
      cases h
    · rw [if_neg hz] at h
      exact ⟨l, rfl, hz, (Option.some_inj.mp h).symm⟩

theorem mkEntry_pos_limit (ms : String) (bs : List BudgetRec) (k : Option String)
    (t l : ℚ) (hb : budgetLimitFor ms bs (catLabel k) = some l) (hl : 0 < l) :
    mkEntry ms bs k t = ⟨catLabel k, pyRound t 2, some l,
      some (pyRound (t / l * 100) 1), msgFor (pyRound (t / l * 100) 1)⟩ := by
  rw [mkEntry, hb]
  dsimp only
  rw [if_neg (ne_of_gt hl)]

theorem mkEntry_no_budget (ms : String) (bs : List BudgetRec) (k : Option String)
    (t : ℚ) (hb : budgetLimitFor ms bs (catLabel k) = none) :
    mkEntry ms bs k t = ⟨catLabel k, pyRound t 2, none, none, MsgKind.noBudget⟩ := by
  rw [mkEntry, hb]

theorem msgFor_over (u : ℚ) : msgFor u = MsgKind.overThreshold ↔ 90 ≤ u := by
  rw [msgFor]
  split_ifs with h1 h2
  · simp [h1]
  · constructor
    · intro h; cases h
    · intro h; exact absurd h h1
  · constructor
    · intro h; cases h
    · intro h; exact absurd h h1

theorem msgFor_warning (u : ℚ) :
    msgFor u = MsgKind.warning ↔ (70 ≤ u ∧ u < 90) := by
  rw [msgFor]
  split_ifs with h1 h2 <;> constructor <;> intro h
  · cases h
  · linarith [h.2]
  · exact ⟨h2, lt_of_not_le h1⟩
  · rfl
  · cases h
  · linarith [h.1]

theorem msgFor_healthy (u : ℚ) : msgFor u = MsgKind.healthy ↔ u < 70 := by
  rw [msgFor]
  split_ifs with h1 h2 <;> constructor <;> intro h
  · cases h
  · linarith
  · cases h
  · linarith
  · exact lt_of_not_le h2
  · rfl

theorem summarize_categories (ms : String) (bs : List BudgetRec)
    (filtered : List Txn) (e : CatEntry)
    (he : e ∈ (summarize ms bs filtered).categories) :
    ∃ k, k ∈ groupKeys filtered
      ∧ e = mkEntry ms bs k (groupTotal filtered k) := by
  rw [summarize] at he
  dsimp only at he
  obtain ⟨g, hg, hge⟩ := List.mem_map.mp he
  rw [mem_sortGroups] at hg
  obtain ⟨k, hk, hkg⟩ := List.mem_map.mp hg
  refine ⟨k, hk, ?_⟩
  rw [← hge, ← hkg]

theorem computeInsights_ok (ms : String) (y m : ℕ) (txns : List Txn)
    (bs : List BudgetRec) (s : Summary)
    (h : computeInsights ms y m txns bs = Except.ok s) :
    ∃ endD, monthEnd y m = some endD
      ∧ s = summarize ms bs (txns.filter (inRange ⟨⟨y, m, 1⟩, 0⟩ ⟨endD, 0⟩)) := by
  rw [computeInsights] at h
  rcases he : monthEnd y m with - | endD
  · rw [he] at h
    cases h
  · rw [he] at h
    exact ⟨endD, rfl, (Except.ok.injEq _ _ ▸ h).symm⟩

/-- C3: for every category group of an insights result whose budget lookup
finds a positive limit, the message shape is decided by the thresholds on
`used_pct = round(total / limit * 100, 1)` (over-threshold at `>= 90`,
warning in `[70, 90)`, healthy below 70); with no budget found, the message
is the no-budget one and the budget field is `none`. -/
def entryRespectsThresholds (ms : String) (bs : List BudgetRec) (e : CatEntry) : Prop :=
  ∃ key total, e = mkEntry ms bs key total
    ∧ (∀ l, budgetLimitFor ms bs (catLabel key) = some l → 0 < l →
        e.budget = some l
        ∧ e.usedPct = some (pyRound (total / l * 100) 1)
        ∧ (e.msgKind = MsgKind.overThreshold ↔ 90 ≤ pyRound (total / l * 100) 1)
        ∧ (e.msgKind = MsgKind.warning ↔
            (70 ≤ pyRound (total / l * 100) 1 ∧ pyRound (total / l * 100) 1 < 90))
        ∧ (e.msgKind = MsgKind.healthy ↔ pyRound (total / l * 100) 1 < 70))
    ∧ (budgetLimitFor ms bs (catLabel key) = none →
        e.msgKind = MsgKind.noBudget ∧ e.budget = none)

/-- C3: every category entry of an insights result respects the budget
threshold rules. -/
theorem c3_budget_thresholds (ms : String) (y m : ℕ) (txns : List Txn)
    (bs : List BudgetRec) (s : Summary)
    (h : computeInsights ms y m txns bs = Except.ok s) :
    ∀ e ∈ s.categories, entryRespectsThresholds ms bs e := by
  intro e he
  obtain ⟨endD, -, hsum⟩ := computeInsights_ok ms y m txns bs s h
  obtain ⟨k, -, hke⟩ := summarize_categories ms bs _ e (hsum ▸ he)
  refine ⟨k, groupTotal (txns.filter (inRange ⟨⟨y, m, 1⟩, 0⟩ ⟨endD, 0⟩)) k, hke, ?_, ?_⟩
  · intro l hl hpos
    rw [hke, mkEntry_pos_limit ms bs k _ l hl hpos]
    exact ⟨rfl, rfl, msgFor_over _, msgFor_warning _, msgFor_healthy _⟩
  · intro hnone
    rw [hke, mkEntry_no_budget ms bs k _ hnone]
    exact ⟨rfl, rfl⟩

/-- C3 witness: the spec's scenario — spend 80 against limit 100 gives the
warning message. -/
theorem c3_witness :
    entryRespectsThresholds "2024-03" [⟨"Groceries", "2024-03", 100⟩]
      ⟨"Groceries", 80, some 100, some 80, MsgKind.warning⟩ :=
  c3_budget_thresholds "2024-03" 2024 3
    [⟨80, "m", none, some "Groceries", ⟨⟨2024, 3, 5⟩, 0⟩, none, "USD"⟩]
    [⟨"Groceries", "2024-03", 100⟩]
    ⟨"2024-03", [⟨"Groceries", 80, some 100, some 80, MsgKind.warning⟩],
      some "Groceries", 80⟩
    (by with_unfolding_all rfl)
    ⟨"Groceries", 80, some 100, some 80, MsgKind.warning⟩ (by simp)

/-- One category entry's spent value is the 2-decimal rounding of the raw
(unrounded) amount sum of its group, and lies within 0.01 of it. -/
def entrySpentSound (filtered : List Txn) (e : CatEntry) : Prop :=
  ∃ k, k ∈ groupKeys filtered
    ∧ e.spent = pyRound (groupTotal filtered k) 2
    ∧ |e.spent - groupTotal filtered k| ≤ 1/100

/-- C4: each category's spent value is the raw per-transaction sum rounded
to 2 decimals (within 0.01 of the true sum), and `total_spend` is the sum
of those already-rounded spent values, rounded again to 2 decimals. -/
theorem c4_rounding_law (ms : String) (y m : ℕ) (txns : List Txn)
    (bs : List BudgetRec) (s : Summary)
    (h : computeInsights ms y m txns bs = Except.ok s) :
    ∃ endD, monthEnd y m = some endD
      ∧ (∀ e ∈ s.categories,
          entrySpentSound (txns.filter (inRange ⟨⟨y, m, 1⟩, 0⟩ ⟨endD, 0⟩)) e)
      ∧ s.totalSpend = pyRound ((s.categories.map CatEntry.spent).sum) 2 := by
  obtain ⟨endD, hend, hsum⟩ := computeInsights_ok ms y m txns bs s h
  refine ⟨endD, hend, ?_, ?_⟩
  · intro e he
    obtain ⟨k, hk, hke⟩ := summarize_categories ms bs _ e (hsum ▸ he)
    refine ⟨k, hk, ?_, ?_⟩
    · rw [hke, mkEntry_spent]
    · rw [hke, mkEntry_spent]
      exact pyRound2_close _
  · rw [hsum]
    rfl

/-- C4 witness: a concrete March 2024 summary obeys the total-spend
re-rounding law. -/
theorem c4_witness :
    (⟨"2024-03", [⟨"Groceries", 80, some 100, some 80, MsgKind.warning⟩],
        some "Groceries", 80⟩ : Summary).totalSpend
      = pyRound ((([⟨"Groceries", 80, some 100, some 80, MsgKind.warning⟩] :
          List CatEntry).map CatEntry.spent).sum) 2 := by
  obtain ⟨endD, -, -, htot⟩ := c4_rounding_law "2024-03" 2024 3
    [⟨50, "m", none, some "Groceries", ⟨⟨2024, 3, 5⟩, 0⟩, none, "USD"⟩,
     ⟨30, "m", none, some "Groceries", ⟨⟨2024, 3, 20⟩, 0⟩, none, "USD"⟩]
    [⟨"Groceries", "2024-03", 100⟩]
    ⟨"2024-03", [⟨"Groceries", 80, some 100, some 80, MsgKind.warning⟩],
      some "Groceries", 80⟩
    (by with_unfolding_all rfl)
  exact htot

/-- C5 counterexample: the spent value for a raw sum of 0.125 is 0.12
(Python's `round` is banker's rounding), while the spec's round-half-up
mode demands 0.13 — so the claim that all monetary rounding is half-up
fails. -/
theorem c5_counterexample :
    computeInsights "2024-03" 2024 3
        [⟨1/8, "m", none, some "A", ⟨⟨2024, 3, 5⟩, 0⟩, none, "USD"⟩] []
      = Except.ok ⟨"2024-03", [⟨"A", 3/25, none, none, MsgKind.noBudget⟩],
          some "A", 3/25⟩
    ∧ pyRound (1/8) 2 = 3/25
    ∧ specRoundHalfUp 2 (1/8) = 13/100
    ∧ (3/25 : ℚ) ≠ 13/100 :=
  ⟨by with_unfolding_all rfl, by with_unfolding_all rfl,
    by with_unfolding_all rfl, by norm_num⟩

/-- One category entry's rounded values are half-to-even roundings: the
spent value at 2 decimals and the percentage quoted in the message at 1
decimal. -/
def entryRoundingHalfEven (e : CatEntry) : Prop :=
  (∃ q, e.spent = pyRound q 2 ∧ isHalfEven (10 ^ 2) q e.spent)
  ∧ (∀ u, e.usedPct = some u → ∃ q, u = pyRound q 1 ∧ isHalfEven (10 ^ 1) q u)

/-- C5, amended: all monetary rounding in `compute_insights` is Python's
`round`, which rounds half to even (banker's rounding), not half-up: each
spent value and the re-rounded total are within half an ulp of their raw
value, land on an even hundredth at exact ties, and percentages behave the
same at 1 decimal. -/
theorem c5_rounding_half_even (ms : String) (y m : ℕ) (txns : List Txn)
    (bs : List BudgetRec) (s : Summary)
    (h : computeInsights ms y m txns bs = Except.ok s) :
    (∀ e ∈ s.categories, entryRoundingHalfEven e)
    ∧ s.totalSpend = pyRound ((s.categories.map CatEntry.spent).sum) 2
    ∧ isHalfEven (10 ^ 2) ((s.categories.map CatEntry.spent).sum) s.totalSpend := by
  obtain ⟨endD, hend, hsum⟩ := computeInsights_ok ms y m txns bs s h
  refine ⟨?_, ?_, ?_⟩
  · intro e he
    obtain ⟨k, -, hke⟩ := summarize_categories ms bs _ e (hsum ▸ he)
    constructor
    · refine ⟨groupTotal (txns.filter (inRange ⟨⟨y, m, 1⟩, 0⟩ ⟨endD, 0⟩)) k, ?_, ?_⟩
      · rw [hke, mkEntry_spent]
      · rw [hke, mkEntry_spent]
        exact pyRound_halfEven _ 2
    · intro u hu
      obtain ⟨l, -, -, hul⟩ := mkEntry_usedPct ms bs k _ u (hke ▸ hu)
      refine ⟨groupTotal (txns.filter (inRange ⟨⟨y, m, 1⟩, 0⟩ ⟨endD, 0⟩)) k / l * 100,
        hul, ?_⟩
      rw [hul]
      exact pyRound_halfEven _ 1
  · rw [hsum]
    rfl
  · have : s.totalSpend = pyRound ((s.categories.map CatEntry.spent).sum) 2 := by
      rw [hsum]; rfl
    rw [this]
    exact pyRound_halfEven _ 2

/-- C5 witness: the rounded total of a concrete summary satisfies the
half-even characterisation. -/
theorem c5_witness :
    isHalfEven (10 ^ 2)
      ((([⟨"A", 3/25, none, none, MsgKind.noBudget⟩] :
          List CatEntry).map CatEntry.spent).sum)
      (⟨"2024-03", [⟨"A", 3/25, none, none, MsgKind.noBudget⟩],
          some "A", 3/25⟩ : Summary).totalSpend := by
  obtain ⟨-, -, hhe⟩ := c5_rounding_half_even "2024-03" 2024 3
    [⟨1/8, "m", none, some "A", ⟨⟨2024, 3, 5⟩, 0⟩, none, "USD"⟩] []
    ⟨"2024-03", [⟨"A", 3/25, none, none, MsgKind.noBudget⟩], some "A", 3/25⟩
    (by with_unfolding_all rfl)
  exact hhe

theorem dictGet_last (bs : List BudgetRec) (cat : String) :
    dictGet bs cat = (bs.filter (fun b => b.category = cat)).getLast? := by
  induction bs using List.reverseRecOn with
  | nil => rfl
  | append_singleton l b ih =>
    rw [dictGet, List.foldl_append, List.foldl_cons, List.foldl_nil,
      List.filter_append]
    show (if b.category = cat then some b else dictGet l cat) = _
    by_cases h : b.category = cat
    · rw [if_pos h]
      have hb : List.filter (fun x => decide (x.category = cat)) [b] = [b] := by
        simp [h]
      rw [hb, List.getLast?_concat]
    · rw [if_neg h]
      have hb : List.filter (fun x => decide (x.category = cat)) [b] = [] := by
        simp [h]
      rw [hb, List.append_nil, ih]

/-- C10: when several budget records carry the same category for the
month, the entry's budget limit is the one of the record appearing last in
retrieval order — the dict built from the budget query overwrites earlier
records — and all earlier duplicates are ignored. -/
theorem c10_last_budget_wins (ms : String) (bs : List BudgetRec)
    (key : Option String) (total : ℚ) :
    (mkEntry ms bs key total).budget
      = (((bs.filter (fun b => b.month = ms)).filter
          (fun b => b.category = catLabel key)).getLast?).map BudgetRec.limit := by
  rw [mkEntry_budget, budgetLimitFor, dictGet_last]

/-- C10 witness: of two budgets for `G` in 2024-03 (limits 100 then 200),
the later one is used. -/
theorem c10_witness :
    (mkEntry "2024-03" [⟨"G", "2024-03", 100⟩, ⟨"G", "2024-03", 200⟩]
        (some "G") 50).budget = some 200 := by
  rw [c10_last_budget_wins "2024-03" [⟨"G", "2024-03", 100⟩, ⟨"G", "2024-03", 200⟩]
    (some "G") 50]
  with_unfolding_all rfl

theorem isDig_bounds (c : Char) (h : isDig c = true) :
    48 ≤ c.toNat ∧ c.toNat ≤ 57 := by
  rw [isDig, decide_eq_true_eq] at h
  exact h

theorem parseMonthCore_bounds : ∀ (l : List Char) (y m : ℕ),
    parseMonthCore l = some (y, m) → 1 ≤ y ∧ y ≤ 9999 ∧ 1 ≤ m ∧ m ≤ 12 := by
  intro l y m h
  rcases l with - | ⟨a, - | ⟨b, - | ⟨c, - | ⟨d, - | ⟨h5, - | ⟨e6, - | ⟨f7, - | ⟨g8, rest⟩⟩⟩⟩⟩⟩⟩⟩
  · simp [parseMonthCore] at h
  · simp [parseMonthCore] at h
  · simp [parseMonthCore] at h
  · simp [parseMonthCore] at h
  · simp [parseMonthCore] at h
  · simp [parseMonthCore] at h
  · simp only [parseMonthCore] at h
    split_ifs at h with hc hy
    rw [Option.some_inj, Prod.mk.injEq] at h
    obtain ⟨hyv, hmv⟩ := h
    simp only [Bool.and_eq_true, decide_eq_true_eq] at hc
    obtain ⟨⟨⟨⟨⟨ha, hb2⟩, hc2⟩, hd⟩, -⟩, he⟩ := hc
    obtain ⟨ha1, ha2⟩ := isDig_bounds a ha
    obtain ⟨hb1, hb2'⟩ := isDig_bounds b hb2
    obtain ⟨hc1, hc2'⟩ := isDig_bounds c hc2
    obtain ⟨hd1, hd2⟩ := isDig_bounds d hd
    rw [yearVal] at hyv hy
    rw [digVal] at hmv
    simp only [digVal] at hyv hy
    omega
  · simp only [parseMonthCore] at h
    split_ifs at h with hc h2a hy0 h2b hy1
    · rw [Option.some_inj, Prod.mk.injEq] at h
      obtain ⟨hyv, hmv⟩ := h
      simp only [Bool.and_eq_true, decide_eq_true_eq] at hc h2a
      obtain ⟨⟨⟨⟨ha, hb2⟩, hc2⟩, hd⟩, -⟩ := hc
      obtain ⟨-, hf⟩ := h2a
      obtain ⟨ha1, ha2⟩ := isDig_bounds a ha
      obtain ⟨hb1, hb2'⟩ := isDig_bounds b hb2
      obtain ⟨hc1, hc2'⟩ := isDig_bounds c hc2
      obtain ⟨hd1, hd2⟩ := isDig_bounds d hd
      rw [yearVal] at hyv hy0
      rw [digVal] at hmv
      simp only [digVal] at hyv hy0
      omega
    · rw [Option.some_inj, Prod.mk.injEq] at h
      obtain ⟨hyv, hmv⟩ := h
      simp only [Bool.and_eq_true, decide_eq_true_eq] at hc h2b
      obtain ⟨⟨⟨⟨ha, hb2⟩, hc2⟩, hd⟩, -⟩ := hc
      obtain ⟨-, hf⟩ := h2b
      obtain ⟨ha1, ha2⟩ := isDig_bounds a ha
      obtain ⟨hb1, hb2'⟩ := isDig_bounds b hb2
      obtain ⟨hc1, hc2'⟩ := isDig_bounds c hc2
      obtain ⟨hd1, hd2⟩ := isDig_bounds d hd
      rw [yearVal] at hyv hy1
      simp only [digVal] at hyv hy1 hmv
      omega
  · simp [parseMonthCore] at h

/-- C6 counterexample: the month string `2024-1` does not match the spec's
pattern `^\d\x7b4\x7d-\d\x7b2\x7d$`, yet `insights` accepts it (strptime
parses `2024-1-01`) and proceeds to compute a summary instead of rejecting
the request. -/
theorem c6_counterexample :
    regexYYYYMM "2024-1" = false
    ∧ parseMonthArg "2024-1" = some (2024, 1)
    ∧ insights "2024-1" [] [] = Except.ok ⟨"2024-1", [], none, 0⟩ :=
  ⟨by decide, by decide, by with_unfolding_all rfl⟩

/-- C6, amended: `insights` rejects, before any aggregation and uniformly
in the stored data, exactly the month strings on which
`strptime(month + "-01", "%Y-%m-%d")` fails; every accepted string denotes
a well-formed calendar month (year 1..9999, month 1..12), but acceptance is
weaker than the spec's `YYYY-MM` pattern — single-digit months such as
`2024-1` also pass. -/
theorem c6_month_validation (s : String) (txns : List Txn) (bs : List BudgetRec) :
    (parseMonthArg s = none → insights s txns bs = Except.error IErr.badMonth)
    ∧ ∀ y m, parseMonthArg s = some (y, m) →
        1 ≤ y ∧ y ≤ 9999 ∧ 1 ≤ m ∧ m ≤ 12 := by
  constructor
  · intro h
    rw [insights, h]
  · intro y m h
    exact parseMonthCore_bounds s.toList y m h

/-- C6 witness: a plainly malformed month string is rejected before any
computation. -/
theorem c6_witness : insights "abcd" [] [] = Except.error IErr.badMonth :=
  (c6_month_validation "abcd" [] []).1 (by decide)

/-- C9 counterexample: a payload carrying the user-supplied category `""`
is persisted with the categorizer's result `Dining` instead — Python's
truthiness test `not data.get("category")` treats the empty string like a
missing category. -/
theorem c9_counterexample :
    storedCategory [⟨"starbucks", "Dining"⟩]
        ⟨5, "Starbucks #123", none, some "", ⟨⟨2024, 1, 1⟩, 0⟩, none, "USD"⟩
      = some "Dining"
    ∧ (⟨5, "Starbucks #123", none, some "", ⟨⟨2024, 1, 1⟩, 0⟩, none, "USD"⟩ :
        Txn).category = some ""
    ∧ some "Dining" ≠ some ("" : String) :=
  ⟨by with_unfolding_all rfl, rfl, by simp⟩

/-- C9, amended: the persisted category is the user-supplied one whenever
it is truthy (present and non-empty); otherwise it is the categorizer's
result when that is truthy, and the payload's original value when not.
Stored transactions are never modified afterwards: `create_transaction`
only appends, and the rule/budget endpoints leave transactions untouched. -/
theorem c9_category_assignment (rules : List Rule) (p : Txn) (st : Store)
    (r : Rule) (b : BudgetRec) (q : Txn) (t : Txn) :
    (optTruthy p.category = true → storedCategory rules p = p.category)
    ∧ (optTruthy p.category = false
        → optTruthy (apply_auto_category p.merchant p.description rules) = true
        → storedCategory rules p = apply_auto_category p.merchant p.description rules)
    ∧ (optTruthy (apply_auto_category p.merchant p.description rules) = false
        → storedCategory rules p = p.category)
    ∧ (create_transaction st q).txns
        = st.txns ++ [{ q with category := storedCategory st.rules q }]
    ∧ (t ∈ st.txns → t ∈ (create_transaction st q).txns
        ∧ t ∈ (add_rule st r).txns ∧ t ∈ (set_budget st b).txns) := by
  refine ⟨?_, ?_, ?_, rfl, ?_⟩
  · intro h
    rw [storedCategory]
    simp [h]
  · intro h1 h2
    rw [storedCategory]
    simp [h1, h2]
  · intro h
    rw [storedCategory]
    simp [h]
  · intro ht
    exact ⟨List.mem_append_left _ ht, ht, ht⟩

/-- C9 witness: a truthy user-supplied category survives creation even
with a matching rule in place, and an existing transaction survives a
subsequent insert. -/
theorem c9_witness :
    storedCategory [⟨"starbucks", "Dining"⟩]
        ⟨5, "Starbucks #123", none, some "Food", ⟨⟨2024, 1, 1⟩, 0⟩, none, "USD"⟩
      = some "Food" :=
  (c9_category_assignment [⟨"starbucks", "Dining"⟩]
    ⟨5, "Starbucks #123", none, some "Food", ⟨⟨2024, 1, 1⟩, 0⟩, none, "USD"⟩
    ⟨[], [], []⟩ ⟨"k", "c"⟩ ⟨"c", "2024-01", 1⟩
    ⟨1, "m", none, none, ⟨⟨2024, 1, 1⟩, 0⟩, none, "USD"⟩
    ⟨1, "m", none, none, ⟨⟨2024, 1, 1⟩, 0⟩, none, "USD"⟩).1 (by decide)

end SpendTracker
